import Mathlib

/-!
Shallow embedding of the phantomasync HTTP capture-and-forward service.

The repository contains three Go programs:
* a Redis-backed producer (server with `parseRequest`, `pushToRedis`, `handleRequest`,
  `NewServer` with a `Ping` check, and a `main` reading a single `-redis` flag);
* a Kafka-backed producer (same handler shape, `produce` writing one record to topic
  "foo" via `ProduceSync`, `NewServer` building a `kgo.Client`, `main` reading a
  single comma-separated address flag);
* a printer variant (a catch-all gin handler that prints method, URI and headers,
  reads the body only for POST/PUT, and always answers 200).

Pure data is translated directly; effectful calls (Redis `LPush`, Kafka
`ProduceSync`, `slog` logging, `c.JSON` responses, `io.ReadAll`) are modelled as
events in an explicit trace, with the fallible calls given by oracle parameters, so
each handler is a pure function from its request and oracles to the list of events
it performs, in program order.
-/

/-- The four-field request envelope (`struct RequestPayload`, identical in both
producer variants).  Go's `http.Header` (`map[string][]string`) is modelled as an
association list from header name to the ordered list of values; a Go map is
canonically the list sorted by key with no duplicate keys. -/
structure RequestPayload where
  method : String
  uri : String
  headers : List (String × List String)
  body : String
deriving DecidableEq, Repr

/-- The `\x7b` brace character, kept out of string literals. -/
def lbrace : Char := Char.ofNat 123

/-- The `\x7d` brace character, kept out of string literals. -/
def rbrace : Char := Char.ofNat 125

/-- Lowercase hexadecimal digit, as in Go `encoding/json`'s `hex` table. -/
def hexDigitChar (n : Nat) : Char :=
  if n < 10 then Char.ofNat (48 + n) else Char.ofNat (87 + n)

/-- Escaping of one character by Go `encoding/json`'s string encoder (with its
default HTML escaping): `"` `\` `\n` `\r` `\t` get two-character escapes, `<` `>`
`&` and the remaining control characters become `\u00XX`, U+2028/U+2029 become
` `/` `, and every other character is copied verbatim. -/
def escapeChar (c : Char) : List Char :=
  if c = '"' then ['\\', '"']
  else if c = '\\' then ['\\', '\\']
  else if c = '\n' then ['\\', 'n']
  else if c = '\r' then ['\\', 'r']
  else if c = '\t' then ['\\', 't']
  else if c = '<' ∨ c = '>' ∨ c = '&' ∨ c.toNat < 32 then
    ['\\', 'u', '0', '0', hexDigitChar (c.toNat / 16), hexDigitChar (c.toNat % 16)]
  else if c.toNat = 8232 ∨ c.toNat = 8233 then
    ['\\', 'u', '2', '0', '2', hexDigitChar (c.toNat % 16)]
  else [c]

/-- Escape a whole character sequence. -/
def escapeList : List Char → List Char
  | [] => []
  | c :: cs => escapeChar c ++ escapeList cs

/-- A JSON string literal: quote, escaped contents, quote. -/
def encodeStr (s : List Char) : List Char := '"' :: (escapeList s ++ ['"'])

/-- Comma-separated encoding of a sequence of elements. -/
def encodeSep {α : Type} (enc : α → List Char) : List α → List Char
  | [] => []
  | [x] => enc x
  | x :: y :: xs => enc x ++ ',' :: encodeSep enc (y :: xs)

/-- A JSON array of strings, as `encoding/json` writes a `[]string`. -/
def encodeArr (l : List (List Char)) : List Char := '[' :: (encodeSep encodeStr l ++ [']'])

/-- One `"name":["v1",...]` member of the headers object. -/
def encodeEntry (kv : List Char × List (List Char)) : List Char :=
  encodeStr kv.1 ++ ':' :: encodeArr kv.2

/-- The headers object, as `encoding/json` writes a `map[string][]string`
(its keys already in the encoder's sorted order). -/
def encodeObj (hs : List (List Char × List (List Char))) : List Char :=
  lbrace :: (encodeSep encodeEntry hs ++ [rbrace])

/-- Headers as raw character data. -/
def headersData (hs : List (String × List String)) : List (List Char × List (List Char)) :=
  hs.map (fun kv => (kv.1.data, kv.2.map String.data))

/-- Encoding `json.Marshal` gives a `RequestPayload`: the field-tagged object
`\x7b"method":…,"uri":…,"headers":…,"body":…\x7d` in struct-field order, exactly
the bytes Go produces (no added whitespace). -/
def serialize (p : RequestPayload) : String :=
  ⟨lbrace :: ("\"method\":".data ++ encodeStr p.method.data
    ++ ',' :: "\"uri\":".data ++ encodeStr p.uri.data
    ++ ',' :: "\"headers\":".data ++ encodeObj (headersData p.headers)
    ++ ',' :: "\"body\":".data ++ encodeStr p.body.data
    ++ [rbrace])⟩

/-- Value of a hexadecimal digit character, if any. -/
def hexVal (c : Char) : Option Nat :=
  if 48 ≤ c.toNat ∧ c.toNat ≤ 57 then some (c.toNat - 48)
  else if 97 ≤ c.toNat ∧ c.toNat ≤ 102 then some (c.toNat - 87)
  else if 65 ≤ c.toNat ∧ c.toNat ≤ 70 then some (c.toNat - 55)
  else none

/-- Prepend a decoded character to a parse result. -/
def consFst (c : Char) : Option (List Char × List Char) → Option (List Char × List Char)
  | none => none
  | some (s, r) => some (c :: s, r)

/-- Code point of four hexadecimal digit values. -/
def hexQuad (a b c d : Nat) : Nat := ((a * 16 + b) * 16 + c) * 16 + d

/-- Decoding of the short JSON escapes. -/
def unescapeChar (e : Char) : Option Char :=
  if e = '"' then some '"'
  else if e = '\\' then some '\\'
  else if e = '/' then some '/'
  else if e = 'n' then some '\n'
  else if e = 'r' then some '\r'
  else if e = 't' then some '\t'
  else if e = 'b' then some (Char.ofNat 8)
  else if e = 'f' then some (Char.ofNat 12)
  else none

/-- Parse the contents of a JSON string up to and including its closing quote,
returning the decoded characters and the remaining input. -/
def parseStrAux : List Char → Option (List Char × List Char)
  | [] => none
  | c :: rest =>
    if c = '"' then some ([], rest)
    else if c = '\\' then
      match rest with
      | [] => none
      | e :: rest2 =>
        if e = 'u' then
          match rest2 with
          | h1 :: h2 :: h3 :: h4 :: rest3 =>
            match hexVal h1, hexVal h2, hexVal h3, hexVal h4 with
            | some a, some b, some c2, some d =>
              if 55296 ≤ hexQuad a b c2 d ∧ hexQuad a b c2 d < 57344 then none
              else consFst (Char.ofNat (hexQuad a b c2 d)) (parseStrAux rest3)
            | _, _, _, _ => none
          | _ => none
        else
          match unescapeChar e with
          | some c2 => consFst c2 (parseStrAux rest2)
          | none => none
    else consFst c (parseStrAux rest)

/-- Parse a JSON string literal (opening quote included). -/
def parseString (l : List Char) : Option (List Char × List Char) :=
  match l with
  | [] => none
  | c :: rest => if c = '"' then parseStrAux rest else none

/-- Parse the comma-separated elements of a nonempty string array, consuming the
closing bracket; the fuel bounds the number of elements. -/
def parseArrItems (fuel : Nat) (l : List Char) : Option (List (List Char) × List Char) :=
  match fuel with
  | 0 => none
  | fuel + 1 =>
    match parseString l with
    | none => none
    | some (s, r) =>
      match r with
      | [] => none
      | c :: r2 =>
        if c = ',' then
          match parseArrItems fuel r2 with
          | none => none
          | some (v, r3) => some (s :: v, r3)
        else if c = ']' then some ([s], r2)
        else none

/-- Parse a JSON array of strings. -/
def parseArr (l : List Char) : Option (List (List Char) × List Char) :=
  match l with
  | [] => none
  | c :: rest =>
    if c = '[' then
      match rest with
      | [] => none
      | d :: rest2 => if d = ']' then some ([], rest2) else parseArrItems rest.length rest
    else none

/-- Parse the members of a nonempty headers object, consuming the closing brace. -/
def parseObjItems (fuel : Nat) (l : List Char) :
    Option (List (List Char × List (List Char)) × List Char) :=
  match fuel with
  | 0 => none
  | fuel + 1 =>
    match parseString l with
    | none => none
    | some (k, r) =>
      match r with
      | [] => none
      | c :: r2 =>
        if c = ':' then
          match parseArr r2 with
          | none => none
          | some (v, r3) =>
            match r3 with
            | [] => none
            | d :: r4 =>
              if d = ',' then
                match parseObjItems fuel r4 with
                | none => none
                | some (hs, r5) => some ((k, v) :: hs, r5)
              else if d = rbrace then some ([(k, v)], r4)
              else none
        else none

/-- Parse a JSON object mapping strings to string arrays. -/
def parseObj (l : List Char) : Option (List (List Char × List (List Char)) × List Char) :=
  match l with
  | [] => none
  | c :: rest =>
    if c = lbrace then
      match rest with
      | [] => none
      | d :: rest2 => if d = rbrace then some ([], rest2) else parseObjItems rest.length rest
    else none

/-- Consume an expected literal prefix. -/
def dropLit : List Char → List Char → Option (List Char)
  | [], l => some l
  | _ :: _, [] => none
  | c :: cs, d :: l => if c = d then dropLit cs l else none

/-- Modelled from the spec: `deserialize(bytes) → Envelope | Error(DecodeFailure)`,
the exact inverse of the wire encoding, which the spec requires of downstream
consumers but which is not implemented in this repository.  It parses the
field-tagged four-field object that `serialize` produces. -/
def deserialize (s : String) : Option RequestPayload :=
  match dropLit (lbrace :: "\"method\":".data) s.data with
  | none => none
  | some l1 =>
    match parseString l1 with
    | none => none
    | some (m, l2) =>
      match dropLit (',' :: "\"uri\":".data) l2 with
      | none => none
      | some l3 =>
        match parseString l3 with
        | none => none
        | some (u, l4) =>
          match dropLit (',' :: "\"headers\":".data) l4 with
          | none => none
          | some l5 =>
            match parseObj l5 with
            | none => none
            | some (hs, l6) =>
              match dropLit (',' :: "\"body\":".data) l6 with
              | none => none
              | some l7 =>
                match parseString l7 with
                | none => none
                | some (b, l8) =>
                  match l8 with
                  | [c] =>
                    if c = rbrace then
                      some ⟨⟨m⟩, ⟨u⟩, hs.map (fun kv => (⟨kv.1⟩, kv.2.map fun v => ⟨v⟩)), ⟨b⟩⟩
                    else none
                  | _ => none

/-- Keys strictly sorted in Go's map-key order (byte order, which on valid
Unicode text is code-point order): the canonical association-list form of a
Go `map[string][]string`. -/
def sortedKeys : List (String × List String) → Bool
  | [] => true
  | [_] => true
  | a :: b :: rest => decide (a.1 < b.1) && sortedKeys (b :: rest)

/-- Eta for strings: rebuilding a string from its character data is the identity. -/
theorem stringEta (s : String) : (⟨s.data⟩ : String) = s := by
  cases s
  rfl


theorem hexVal_hexDigitChar (n : Nat) (h : n < 16) : hexVal (hexDigitChar n) = some n := by
  interval_cases n <;> decide

theorem parseStrAux_u00 (n : Nat) (hn : n < 256) (t : List Char) :
    parseStrAux ('\\' :: 'u' :: '0' :: '0' :: hexDigitChar (n / 16) :: hexDigitChar (n % 16) :: t)
      = consFst (Char.ofNat n) (parseStrAux t) := by
  have h0 : hexVal '0' = some 0 := by decide
  have h1 : hexVal (hexDigitChar (n / 16)) = some (n / 16) := hexVal_hexDigitChar _ (by omega)
  have h2 : hexVal (hexDigitChar (n % 16)) = some (n % 16) := hexVal_hexDigitChar _ (by omega)
  have e1 : hexQuad 0 0 (n / 16) (n % 16) = n := by unfold hexQuad; omega
  rw [parseStrAux.eq_def]
  simp +decide only [h0, h1, h2, e1, if_true]
  have hns : ¬(55296 ≤ n ∧ n < 57344) := by omega
  rw [if_neg hns]
  simp

theorem parseStrAux_u202x (n : Nat) (hn : n = 8232 ∨ n = 8233) (t : List Char) :
    parseStrAux ('\\' :: 'u' :: '2' :: '0' :: '2' :: hexDigitChar (n % 16) :: t)
      = consFst (Char.ofNat n) (parseStrAux t) := by
  rcases hn with h | h <;> subst h <;> rw [parseStrAux.eq_def] <;>
    simp +decide [hexVal, hexQuad, hexDigitChar]

/-- Parsing inverts one character of Go JSON escaping, whatever follows. -/
theorem parseStrAux_escape (c : Char) (t : List Char) :
    parseStrAux (escapeChar c ++ t) = consFst c (parseStrAux t) := by
  unfold escapeChar
  split_ifs with h1 h2 h3 h4 h5 h6 h7
  · subst h1; rw [List.cons_append, List.cons_append, List.nil_append, parseStrAux.eq_def]
    simp +decide [unescapeChar]
  · subst h2; rw [List.cons_append, List.cons_append, List.nil_append, parseStrAux.eq_def]
    simp +decide [unescapeChar]
  · subst h3; rw [List.cons_append, List.cons_append, List.nil_append, parseStrAux.eq_def]
    simp +decide [unescapeChar]
  · subst h4; rw [List.cons_append, List.cons_append, List.nil_append, parseStrAux.eq_def]
    simp +decide [unescapeChar]
  · subst h5; rw [List.cons_append, List.cons_append, List.nil_append, parseStrAux.eq_def]
    simp +decide [unescapeChar]
  · have hb : c.toNat < 256 := by
      rcases h6 with h | h | h | h
      · subst h; decide
      · subst h; decide
      · subst h; decide
      · omega
    simp only [List.cons_append, List.nil_append]
    rw [parseStrAux_u00 c.toNat hb t, Char.ofNat_toNat]
  · simp only [List.cons_append, List.nil_append]
    rw [parseStrAux_u202x c.toNat h7 t, Char.ofNat_toNat]
  · simp only [List.cons_append, List.nil_append]
    rw [parseStrAux.eq_def]
    simp only [if_neg h1, if_neg h2]

/-- Parsing inverts Go JSON escaping of a whole character sequence. -/
theorem parseStrAux_encode (s t : List Char) :
    parseStrAux (escapeList s ++ '"' :: t) = some (s, t) := by
  induction s with
  | nil =>
    rw [escapeList, List.nil_append, parseStrAux.eq_def]
    simp
  | cons c cs ih =>
    rw [escapeList, List.append_assoc, parseStrAux_escape, ih]
    rfl

/-- Parsing inverts the JSON string-literal encoding, whatever follows. -/
theorem parseString_encode (s t : List Char) :
    parseString (encodeStr s ++ t) = some (s, t) := by
  rw [encodeStr]
  simp only [List.cons_append, List.append_assoc, List.singleton_append]
  rw [parseString]
  simp only [if_pos rfl]
  exact parseStrAux_encode s t

theorem encodeSep_len {α : Type} (enc : α → List Char) (henc : ∀ x, 1 ≤ (enc x).length)
    (l : List α) : l.length ≤ (encodeSep enc l).length + 1 := by
  induction l with
  | nil => simp [encodeSep]
  | cons x xs ih =>
    cases xs with
    | nil => simp [encodeSep]
    | cons y ys =>
      rw [encodeSep]
      have hx := henc x
      simp only [List.length_cons, List.length_append] at *
      omega

/-- Parsing inverts the element list of a nonempty string array, given enough fuel. -/
theorem parseArrItems_encode (v : List (List Char)) (t : List Char) :
    ∀ fuel : Nat, v ≠ [] → v.length ≤ fuel →
      parseArrItems fuel (encodeSep encodeStr v ++ ']' :: t) = some (v, t) := by
  induction v with
  | nil => intro fuel h _; exact absurd rfl h
  | cons x xs ih =>
    intro fuel _ hlen
    cases fuel with
    | zero => simp at hlen
    | succ f =>
      cases xs with
      | nil =>
        rw [encodeSep, parseArrItems.eq_def]
        simp +decide [parseString_encode]
      | cons y ys =>
        have ih' := ih f (by simp) (by simp only [List.length_cons] at hlen ⊢; omega)
        rw [encodeSep, parseArrItems.eq_def]
        simp +decide [parseString_encode, ih']

theorem encodeSep_encodeStr_cons (x : List Char) (xs : List (List Char)) :
    ∃ r, encodeSep encodeStr (x :: xs) = '"' :: r := by
  cases xs with
  | nil => exact ⟨_, rfl⟩
  | cons y ys => exact ⟨_, rfl⟩

theorem encodeStr_len (s : List Char) : 1 ≤ (encodeStr s).length := by
  simp [encodeStr]

/-- Parsing inverts the JSON string-array encoding, whatever follows. -/
theorem parseArr_encode (v : List (List Char)) (t : List Char) :
    parseArr (encodeArr v ++ t) = some (v, t) := by
  cases v with
  | nil =>
    rw [encodeArr]
    simp +decide [encodeSep, parseArr]
  | cons x xs =>
    obtain ⟨r, hr⟩ := encodeSep_encodeStr_cons x xs
    rw [encodeArr]
    simp only [List.cons_append, List.append_assoc, List.singleton_append]
    rw [parseArr.eq_def]
    simp +decide only [if_true]
    rw [hr, List.cons_append]
    simp +decide only [if_true, if_false]
    rw [← List.cons_append, ← hr]
    have hb : (x :: xs).length ≤ (encodeSep encodeStr (x :: xs) ++ ']' :: t).length := by
      have h1 := encodeSep_len encodeStr encodeStr_len (x :: xs)
      simp only [List.length_append, List.length_cons] at *
      omega
    exact parseArrItems_encode (x :: xs) t _ (by simp) hb

theorem encodeEntry_len (kv : List Char × List (List Char)) : 1 ≤ (encodeEntry kv).length := by
  simp [encodeEntry, encodeStr]

theorem encodeSep_encodeEntry_cons (x : List Char × List (List Char))
    (xs : List (List Char × List (List Char))) :
    ∃ r, encodeSep encodeEntry (x :: xs) = '"' :: r := by
  obtain ⟨k, vs⟩ := x
  cases xs with
  | nil => exact ⟨_, rfl⟩
  | cons y ys => exact ⟨_, rfl⟩

/-- Parsing inverts the member list of a nonempty headers object, given enough fuel. -/
theorem parseObjItems_encode (hs : List (List Char × List (List Char))) (t : List Char) :
    ∀ fuel : Nat, hs ≠ [] → hs.length ≤ fuel →
      parseObjItems fuel (encodeSep encodeEntry hs ++ rbrace :: t) = some (hs, t) := by
  induction hs with
  | nil => intro fuel h _; exact absurd rfl h
  | cons x xs ih =>
    intro fuel _ hlen
    cases fuel with
    | zero => simp at hlen
    | succ f =>
      obtain ⟨k, vs⟩ := x
      cases xs with
      | nil =>
        rw [encodeSep, encodeEntry, parseObjItems.eq_def]
        simp +decide [parseString_encode, parseArr_encode, rbrace]
      | cons y ys =>
        have ih' := ih f (by simp) (by simp only [List.length_cons] at hlen ⊢; omega)
        rw [encodeSep, encodeEntry, parseObjItems.eq_def]
        simp +decide [parseString_encode, parseArr_encode, ih']

/-- Parsing inverts the headers-object encoding, whatever follows. -/
theorem parseObj_encode (hs : List (List Char × List (List Char))) (t : List Char) :
    parseObj (encodeObj hs ++ t) = some (hs, t) := by
  cases hs with
  | nil =>
    rw [encodeObj]
    simp +decide [encodeSep, parseObj, lbrace, rbrace]
  | cons x xs =>
    obtain ⟨r, hr⟩ := encodeSep_encodeEntry_cons x xs
    rw [encodeObj]
    simp only [List.cons_append, List.append_assoc, List.singleton_append]
    rw [parseObj.eq_def]
    simp +decide only [if_true]
    rw [hr, List.cons_append]
    simp +decide only [if_true, if_false, lbrace, rbrace]
    rw [← List.cons_append, ← hr]
    have hb : (x :: xs).length ≤ (encodeSep encodeEntry (x :: xs) ++ rbrace :: t).length := by
      have h1 := encodeSep_len encodeEntry encodeEntry_len (x :: xs)
      simp only [List.length_append, List.length_cons] at *
      omega
    exact parseObjItems_encode (x :: xs) t _ (by simp) hb

theorem dropLit_append (lit t : List Char) : dropLit lit (lit ++ t) = some t := by
  induction lit with
  | nil => rfl
  | cons c cs ih =>
    rw [List.cons_append, dropLit.eq_def]
    simp [ih]

theorem dropLit_cons_append (c : Char) (lit t : List Char) :
    dropLit (c :: lit) (c :: (lit ++ t)) = some t := by
  rw [dropLit.eq_def]
  simp [dropLit_append]

theorem mapMk_data (vs : List String) : (vs.map String.data).map (fun v => (⟨v⟩ : String)) = vs := by
  induction vs with
  | nil => rfl
  | cons v rest ih =>
    simp only [List.map_cons, ih, stringEta]

/-- Rebuilding string headers from their raw character data is the identity. -/
theorem headersData_roundTrip (hs : List (String × List String)) :
    (headersData hs).map (fun kv => ((⟨kv.1⟩ : String), kv.2.map fun v => (⟨v⟩ : String))) = hs := by
  induction hs with
  | nil => rfl
  | cons kv rest ih =>
    obtain ⟨k, vs⟩ := kv
    simp only [headersData, List.map_cons] at ih ⊢
    rw [ih]
    simp only [stringEta, mapMk_data]

theorem dropLit_nil (l : List Char) : dropLit [] l = some l := rfl

theorem dropLit_cons (c : Char) (cs l : List Char) :
    dropLit (c :: cs) (c :: l) = dropLit cs l := by
  rw [dropLit.eq_def]
  simp

/-- C1: deserializing the serialized byte form of a representable envelope yields
the envelope back, exactly — method, uri, header multimap with per-name value
order, and body text.  `sortedKeys` states Go-map representability of the header
association list (Go's encoder emits map keys in sorted byte order). -/
theorem deserialize_serialize (e : RequestPayload) (hsorted : sortedKeys e.headers = true) :
    deserialize (serialize e) = some e := by
  obtain ⟨m, u, hs, b⟩ := e
  rw [serialize, deserialize.eq_def]
  simp only [List.cons_append, List.append_assoc, List.nil_append,
    dropLit_cons, dropLit_nil, parseString_encode, parseObj_encode]
  simp +decide [stringEta, headersData_roundTrip]

/-- The spec §8 scenario envelope: `GET /foo/bar?x=1` with one `Accept` header and
an empty body. -/
def specScenarioEnvelope : RequestPayload :=
  ⟨"GET", "/foo/bar?x=1", [("Accept", ["text/plain"])], ""⟩

/-- Witness for C1: the round-trip theorem applied to the spec scenario envelope,
whose header keys are (trivially) sorted. -/
theorem deserialize_serialize_witness :
    sortedKeys specScenarioEnvelope.headers = true
      ∧ deserialize (serialize specScenarioEnvelope) = some specScenarioEnvelope :=
  ⟨by decide, deserialize_serialize specScenarioEnvelope (by decide)⟩

instance exceptDecEq {ε α : Type} [DecidableEq ε] [DecidableEq α] :
    DecidableEq (Except ε α) := fun a b =>
  match a, b with
  | .error e1, .error e2 =>
    if h : e1 = e2 then isTrue (by rw [h]) else
      isFalse (by intro hh; injection hh; contradiction)
  | .ok a1, .ok a2 =>
    if h : a1 = a2 then isTrue (by rw [h]) else
      isFalse (by intro hh; injection hh; contradiction)
  | .error _, .ok _ => isFalse (by intro hh; injection hh)
  | .ok _, .error _ => isFalse (by intro hh; injection hh)

/-- The data of one inbound HTTP request as gin hands it to the handler:
`c.Request.Method`, `c.Request.RequestURI`, `c.Request.Header`, and the body
stream, whose full drain (`io.ReadAll(c.Request.Body)`) either yields the whole
body text or fails with a read error. -/
structure RawRequest where
  method : String
  requestURI : String
  header : List (String × List String)
  bodyStream : Except String String
deriving DecidableEq, Repr

/-- Method `parseRequest` (identical in the Redis and Kafka variants): drain the body
with `io.ReadAll`; on failure return the error and a zero payload; on success copy
method, request URI and the header multimap into a `RequestPayload` whose body is
the full body text. -/
def parseRequest (req : RawRequest) : Except String RequestPayload :=
  match req.bodyStream with
  | .error err => .error err
  | .ok body => .ok ⟨req.method, req.requestURI, req.header, body⟩

/-- Oracle instance for `json.Marshal` as the producers invoke it: for this payload type Go's
marshaller always succeeds with the serialized bytes.  The code still checks the
error result, so the handler theorems quantify over an arbitrary marshal oracle;
this is its actual instance. -/
def jsonMarshal (data : RequestPayload) : Except String String := .ok (serialize data)

/-- One observable action of a handler, in program order. -/
inductive Event where
  | lpushCall (queue : String) (value : String)
  | produceCall (topic : String) (value : String)
  | logError (msg : String) (detail : String)
  | logInfo (msg : String) (method : String) (uri : String)
  | respond (status : Nat) (body : String)
deriving DecidableEq, Repr

/-- Rendering of a one-field `gin.H` JSON body, as `c.JSON` serializes it. -/
def jsonField (key msg : String) : String :=
  ⟨lbrace :: (encodeStr key.data ++ ':' :: encodeStr msg.data ++ [rbrace])⟩

/-- Method `pushToRedis` (Redis variant): marshal the payload; propagate a marshal error
without touching Redis; otherwise `LPush` the bytes onto the hardcoded
`request_queue` list and return the push outcome.  The `lpush` oracle gives the
outcome of `s.RedisClient.LPush(ctx, queue, data).Err()`; the event records the
invocation. -/
def pushToRedis (marshal : RequestPayload → Except String String)
    (lpush : String → String → Except String Unit) (data : RequestPayload) :
    Except String Unit × List Event :=
  match marshal data with
  | .error err => (.error err, [])
  | .ok jsonData => (lpush "request_queue" jsonData, [.lpushCall "request_queue" jsonData])

/-- Method `produce` (Kafka variant): marshal the payload; propagate a marshal error
without touching Kafka; otherwise `ProduceSync` one record on the hardcoded topic
"foo" and return `FirstErr()` of the result. -/
def produce (marshal : RequestPayload → Except String String)
    (produceSync : String → String → Except String Unit) (data : RequestPayload) :
    Except String Unit × List Event :=
  match marshal data with
  | .error err => (.error err, [])
  | .ok jsonData => (produceSync "foo" jsonData, [.produceCall "foo" jsonData])

/-- Handler `handleRequest` (Redis variant), as the ordered list of its observable
actions: parse the request — on failure answer 500 with the fixed
`Failed to read request body` error object, log the detail, and return; push to
Redis — on failure answer 500 with the fixed `Failed to push to Redis queue`
error object, log the detail, and return; otherwise log at info level (method and
URI) and answer 200 with the fixed `Request added to Redis queue` message
object. -/
def handleRequest (marshal : RequestPayload → Except String String)
    (lpush : String → String → Except String Unit) (req : RawRequest) : List Event :=
  match parseRequest req with
  | .error err =>
    [.respond 500 (jsonField "error" "Failed to read request body"),
     .logError "Failed to read request body" err]
  | .ok requestData =>
    match pushToRedis marshal lpush requestData with
    | (.error err, evs) =>
      evs ++ [.respond 500 (jsonField "error" "Failed to push to Redis queue"),
        .logError "Failed to push to Redis queue" err]
    | (.ok _, evs) =>
      evs ++ [.logInfo "Request added to Redis queue" requestData.method requestData.uri,
        .respond 200 (jsonField "message" "Request added to Redis queue")]

/-- Handler `handleRequest` (Kafka variant): identical control flow and identical
user-facing strings (the Kafka code also says "Redis queue"), with `produce` in
place of `pushToRedis`. -/
def kafkaHandleRequest (marshal : RequestPayload → Except String String)
    (produceSync : String → String → Except String Unit) (req : RawRequest) : List Event :=
  match parseRequest req with
  | .error err =>
    [.respond 500 (jsonField "error" "Failed to read request body"),
     .logError "Failed to read request body" err]
  | .ok requestData =>
    match produce marshal produceSync requestData with
    | (.error err, evs) =>
      evs ++ [.respond 500 (jsonField "error" "Failed to push to Redis queue"),
        .logError "Failed to push to Redis queue" err]
    | (.ok _, evs) =>
      evs ++ [.logInfo "Request added to Redis queue" requestData.method requestData.uri,
        .respond 200 (jsonField "message" "Request added to Redis queue")]

/-- The `(status, body)` pairs written by `c.JSON` during a trace. -/
def responsesOf (evs : List Event) : List (Nat × String) :=
  evs.filterMap fun e =>
    match e with
    | .respond status body => some (status, body)
    | _ => none

/-- Whether an event is a backend enqueue invocation. -/
def isEnqueue : Event → Bool
  | .lpushCall _ _ => true
  | .produceCall _ _ => true
  | _ => false

/-- Number of backend enqueue invocations in a trace. -/
def countEnqueue (evs : List Event) : Nat := (evs.filter isEnqueue).length

/-- Events performed after the first response was written. -/
def afterFirstRespond : List Event → List Event
  | [] => []
  | .respond _ _ :: rest => rest
  | _ :: rest => afterFirstRespond rest

/-- No backend enqueue happens once a response has been written. -/
def noEnqueueAfterRespond (evs : List Event) : Bool :=
  (afterFirstRespond evs).all fun e => !isEnqueue e

/-- Whether a fallible step failed. -/
def exceptFailed {ε α : Type} : Except ε α → Bool
  | .error _ => true
  | .ok _ => false

/-- Capture failed, or capture succeeded and serialization of its envelope
failed. -/
def captureOrMarshalFails (marshal : RequestPayload → Except String String)
    (req : RawRequest) : Bool :=
  match parseRequest req with
  | .error _ => true
  | .ok d => exceptFailed (marshal d)

/-- First value list stored under a header name (`http.Header` lookup). -/
def lookupHeader : List (String × List String) → String → Option (List String)
  | [], _ => none
  | kv :: rest, n => if kv.1 = n then some kv.2 else lookupHeader rest n

/-- One observable startup action of a producer `main`. -/
inductive StartEvent where
  | createHandle
  | pingCheck
  | logStartError (msg : String)
  | logStartInfo (msg : String)
  | serveHTTP (port : Nat)
deriving DecidableEq, Repr

/-- Startup `NewServer` (Redis variant): `redis.NewClient` with the flag's address and
database 0 (client creation itself performs no network I/O), then `Ping(ctx)`;
an unreachable backend turns the ping error into a failed result, a reachable
one into a live handle. -/
def redisNewServer (backendUp : Bool) : Except String Unit × List StartEvent :=
  (if backendUp then .ok () else .error "failed to connect to Redis",
   [.createHandle, .pingCheck])

/-- Entry point `main` (Redis variant): create and ping the server handle; on failure log
`Failed to initialize server` and return without ever serving; on success log
`Connected to Redis` and run the gin router on port 8080. -/
def redisMain (backendUp : Bool) : List StartEvent :=
  match redisNewServer backendUp with
  | (.error _, evs) => evs ++ [.logStartError "Failed to initialize server"]
  | (.ok _, evs) => evs ++ [.logStartInfo "Connected to Redis", .serveHTTP 8080]

/-- The options `NewServer` (Redis variant) passes to `redis.NewClient`:
the `-redis` flag value as address, database 0. -/
structure RedisOpts where
  addr : String
  db : Nat
deriving DecidableEq, Repr

/-- The `redis.Options` built by the Redis variant's `NewServer`. -/
def redisNewServerOpts (redisAddr : String) : RedisOpts :=
  { addr := redisAddr, db := 0 }

/-- The client configuration `NewServer` (Kafka variant) hands to
`kgo.NewClient`. -/
structure KgoClientConf where
  consumerGroup : Option String
  consumeTopics : List String
  seedBrokers : List String
deriving DecidableEq, Repr

/-- franz-go's built-in default seed broker, used whenever `kgo.SeedBrokers` is
not supplied. -/
def franzDefaultSeeds : List String := ["127.0.0.1:9092"]

/-- Startup `NewServer` (Kafka variant): builds the `kgo.Client` from
`kgo.ConsumerGroup("my-group-identifier")` and `kgo.ConsumeTopics("foo")` only.
The `seeds` parameter is never used, so the client keeps the library default
seed; client construction attempts no connection and performs no reachability
check, so it succeeds whatever the backend's state. -/
def kafkaNewServer (seeds : List String) : Except String KgoClientConf :=
  .ok { consumerGroup := some "my-group-identifier", consumeTopics := ["foo"],
        seedBrokers := franzDefaultSeeds }

/-- Entry point `main` (Kafka variant): split the address flag on commas, create the server
(no ping — the outcome is independent of the backend being up), log
`Connected to kafka`, and run the gin router on port 8080. -/
def kafkaMain (backendUp : Bool) (addrRaw : String) : List StartEvent :=
  match kafkaNewServer (addrRaw.splitOn ",") with
  | .error _ => [.createHandle, .logStartError "Failed to initialize server"]
  | .ok _ => [.createHandle, .logStartInfo "Connected to kafka", .serveHTTP 8080]

/-- One observable action of the printer variant's handler. -/
inductive PrintEvent where
  | printLine (s : String)
  | readBodyCall
  | respondOk (message : String)
deriving DecidableEq, Repr

/-- Rendering of a `[]string` header value by `fmt.Printf` with `%s`. -/
def goStringsFmt (vs : List String) : String :=
  "[" ++ String.intercalate " " vs ++ "]"

/-- The printer variant's catch-all handler: print method and URI, print each
header entry, read (and on a successful read print) the body — but only for POST
or PUT — then always answer 200 `Request received and printed to console`. -/
def printerHandler (req : RawRequest) : List PrintEvent :=
  [.printLine ("Method: " ++ req.method), .printLine ("URI: " ++ req.requestURI),
    .printLine "Headers:"]
  ++ req.header.map (fun kv => .printLine (kv.1 ++ ": " ++ goStringsFmt kv.2))
  ++ (if req.method = "POST" ∨ req.method = "PUT" then
        .readBodyCall ::
          (match req.bodyStream with
           | .ok b => [.printLine ("Body: " ++ b)]
           | .error _ => [])
      else [])
  ++ [.respondOk "Request received and printed to console"]

/-- The HTTP methods gin's `router.Any` registers a handler for. -/
def ginAnyMethods : List String :=
  ["GET", "POST", "PUT", "PATCH", "HEAD", "OPTIONS", "DELETE", "CONNECT", "TRACE"]

/-- The one registered handler. -/
inductive HandlerId where
  | mainHandler
deriving DecidableEq, Repr

/-- Routing of `r.Any("/*proxyPath", handler)`: for every method `Any` covers,
the `*proxyPath` wildcard matches every path and dispatches to the single
handler. -/
def routeTarget (method path : String) : Option HandlerId :=
  if method ∈ ginAnyMethods then some .mainHandler else none

/-- A request whose body stream fails mid-read. -/
def unreadableReq : RawRequest := ⟨"GET", "/", [], .error "connection reset"⟩

/-- The spec §8 scenario request: healthy GET with one Accept header, empty body. -/
def scenarioReq : RawRequest :=
  ⟨"GET", "/foo/bar?x=1", [("Accept", ["text/plain"])], .ok ""⟩

/-- An always-acknowledging backend oracle. -/
def okPush : String → String → Except String Unit := fun _ _ => .ok ()

/-- A backend oracle that refuses every enqueue with a fixed detail. -/
def downPush : String → String → Except String Unit := fun _ _ => .error "connection refused"

/-- C2: for one handled request the backend enqueue primitive is invoked at most
once in either variant, and not at all when capture or serialization fails; a
failed attempt is never retried or requeued. -/
theorem atMostOneEnqueue (marshal : RequestPayload → Except String String)
    (lpush produceSync : String → String → Except String Unit) (req : RawRequest) :
    countEnqueue (handleRequest marshal lpush req) ≤ 1
      ∧ countEnqueue (kafkaHandleRequest marshal produceSync req) ≤ 1
      ∧ (captureOrMarshalFails marshal req = true →
          countEnqueue (handleRequest marshal lpush req) = 0
            ∧ countEnqueue (kafkaHandleRequest marshal produceSync req) = 0) := by
  unfold handleRequest kafkaHandleRequest pushToRedis produce captureOrMarshalFails
  cases hp : parseRequest req with
  | error err => simp [countEnqueue, isEnqueue]
  | ok d =>
    cases hm : marshal d with
    | error err => simp [countEnqueue, isEnqueue, exceptFailed, hm]
    | ok bytes =>
      cases hl : lpush "request_queue" bytes <;> cases hk : produceSync "foo" bytes <;>
        simp [countEnqueue, isEnqueue, exceptFailed, hm, hl, hk]

/-- Witness for C2 at a concrete capture failure with a healthy backend: the
enqueue count is zero in both variants. -/
theorem atMostOneEnqueue_witness :
    captureOrMarshalFails jsonMarshal unreadableReq = true
      ∧ countEnqueue (handleRequest jsonMarshal okPush unreadableReq) = 0
      ∧ countEnqueue (kafkaHandleRequest jsonMarshal okPush unreadableReq) = 0 :=
  ⟨by decide, (atMostOneEnqueue jsonMarshal okPush okPush unreadableReq).2.2 (by decide)⟩

/-- C3: complete status mapping of both handlers, for every request (any method,
path, headers, body) and any oracle outcomes: capture failure, serialize failure
and backend failure each yield exactly one 500 response with the stage's fixed
error object; full success yields exactly one 200 response with the fixed
confirmation object `message: Request added to Redis queue`. -/
theorem statusCodeMapping (marshal : RequestPayload → Except String String)
    (lpush produceSync : String → String → Except String Unit) (req : RawRequest) :
    (responsesOf (handleRequest marshal lpush req) =
      match parseRequest req with
      | .error _ => [(500, jsonField "error" "Failed to read request body")]
      | .ok d =>
        match marshal d with
        | .error _ => [(500, jsonField "error" "Failed to push to Redis queue")]
        | .ok bytes =>
          match lpush "request_queue" bytes with
          | .error _ => [(500, jsonField "error" "Failed to push to Redis queue")]
          | .ok _ => [(200, jsonField "message" "Request added to Redis queue")])
    ∧ (responsesOf (kafkaHandleRequest marshal produceSync req) =
      match parseRequest req with
      | .error _ => [(500, jsonField "error" "Failed to read request body")]
      | .ok d =>
        match marshal d with
        | .error _ => [(500, jsonField "error" "Failed to push to Redis queue")]
        | .ok bytes =>
          match produceSync "foo" bytes with
          | .error _ => [(500, jsonField "error" "Failed to push to Redis queue")]
          | .ok _ => [(200, jsonField "message" "Request added to Redis queue")]) := by
  unfold handleRequest kafkaHandleRequest pushToRedis produce
  cases parseRequest req with
  | error err => simp [responsesOf]
  | ok d =>
    cases hm : marshal d with
    | error err => simp [responsesOf, hm]
    | ok bytes =>
      cases hl : lpush "request_queue" bytes <;> cases hk : produceSync "foo" bytes <;>
        simp [responsesOf, hm, hl, hk]

/-- C10: every invocation of either handler writes exactly one response, and no
backend call happens after the response is written — the failure branches only
log and return. -/
theorem exactlyOneResponse (marshal : RequestPayload → Except String String)
    (lpush produceSync : String → String → Except String Unit) (req : RawRequest) :
    (responsesOf (handleRequest marshal lpush req)).length = 1
      ∧ noEnqueueAfterRespond (handleRequest marshal lpush req) = true
      ∧ (responsesOf (kafkaHandleRequest marshal produceSync req)).length = 1
      ∧ noEnqueueAfterRespond (kafkaHandleRequest marshal produceSync req) = true := by
  unfold handleRequest kafkaHandleRequest pushToRedis produce
  cases parseRequest req with
  | error err => simp [responsesOf, noEnqueueAfterRespond, afterFirstRespond, isEnqueue]
  | ok d =>
    cases hm : marshal d with
    | error err => simp [responsesOf, noEnqueueAfterRespond, afterFirstRespond, isEnqueue, hm]
    | ok bytes =>
      cases hl : lpush "request_queue" bytes <;> cases hk : produceSync "foo" bytes <;>
        simp [responsesOf, noEnqueueAfterRespond, afterFirstRespond, isEnqueue, hm, hl, hk]

/-- C9: the HTTP responses are independent of the internal error text — swapping
the read error detail, the marshal error detail, or the backend error detail
never changes the response list — while the backend's detail does reach the error
log. -/
theorem genericErrorResponses (m u : String) (hdr : List (String × List String))
    (b e1 e2 detail : String) (marshal : RequestPayload → Except String String)
    (lpush : String → String → Except String Unit) (req : RawRequest) :
    (responsesOf (handleRequest marshal lpush ⟨m, u, hdr, .error e1⟩) =
        responsesOf (handleRequest marshal lpush ⟨m, u, hdr, .error e2⟩))
      ∧ (responsesOf (handleRequest (fun _ => .error e1) lpush req) =
          responsesOf (handleRequest (fun _ => .error e2) lpush req))
      ∧ (responsesOf (handleRequest marshal (fun _ _ => .error e1) req) =
          responsesOf (handleRequest marshal (fun _ _ => .error e2) req))
      ∧ (responsesOf (kafkaHandleRequest marshal (fun _ _ => .error e1) req) =
          responsesOf (kafkaHandleRequest marshal (fun _ _ => .error e2) req))
      ∧ Event.logError "Failed to push to Redis queue" detail
          ∈ handleRequest jsonMarshal (fun _ _ => .error detail) ⟨m, u, hdr, .ok b⟩ := by
  refine ⟨?_, ?_, ?_, ?_, ?_⟩
  · simp [handleRequest, parseRequest, pushToRedis, responsesOf]
  · unfold handleRequest pushToRedis
    cases parseRequest req <;> simp [responsesOf]
  · unfold handleRequest pushToRedis
    cases parseRequest req with
    | error err => simp [responsesOf]
    | ok d => cases hm : marshal d <;> simp [responsesOf, hm]
  · unfold kafkaHandleRequest produce
    cases parseRequest req with
    | error err => simp [responsesOf]
    | ok d => cases hm : marshal d <;> simp [responsesOf, hm]
  · simp [handleRequest, parseRequest, pushToRedis, jsonMarshal]

/-- C6 counterexample: with the backend down at enqueue time the handler's 500
body is the JSON object `error: Failed to push to Redis queue` — not the
`error: Failed to push to queue` object the spec's scenario states. -/
theorem backendFailureBody_counterexample :
    responsesOf (handleRequest jsonMarshal downPush scenarioReq)
        = [(500, jsonField "error" "Failed to push to Redis queue")]
      ∧ responsesOf (handleRequest jsonMarshal downPush scenarioReq)
          ≠ [(500, jsonField "error" "Failed to push to queue")] := by
  decide

/-- C6 (amended): when the backend fails at enqueue time with any detail, the
handler answers 500 with the fixed `error: Failed to push to Redis queue` JSON
object, the fully captured envelope (method, URI, headers, body text) was
serialized and handed to the enqueue call, and the backend's failure detail is
logged at error level. -/
theorem backendFailureResponse (m u : String) (hdr : List (String × List String))
    (b detail : String) :
    responsesOf (handleRequest jsonMarshal (fun _ _ => .error detail) ⟨m, u, hdr, .ok b⟩)
        = [(500, jsonField "error" "Failed to push to Redis queue")]
      ∧ Event.lpushCall "request_queue" (serialize ⟨m, u, hdr, b⟩)
          ∈ handleRequest jsonMarshal (fun _ _ => .error detail) ⟨m, u, hdr, .ok b⟩
      ∧ Event.logError "Failed to push to Redis queue" detail
          ∈ handleRequest jsonMarshal (fun _ _ => .error detail) ⟨m, u, hdr, .ok b⟩ := by
  simp [handleRequest, parseRequest, pushToRedis, jsonMarshal, responsesOf]

/-- C7: if the request's header multimap carries the name `n` (its entry holding
the ordered received values `vs`), the captured envelope's headers hold exactly
the same entry: the ordered sequence `vs`, never a collapsed value. -/
theorem headerPreservation (m u b n : String) (vs : List String)
    (pre post : List (String × List String))
    (hfresh : pre.all (fun kv => !(kv.1 == n)) = true) :
    parseRequest ⟨m, u, pre ++ (n, vs) :: post, .ok b⟩
        = .ok ⟨m, u, pre ++ (n, vs) :: post, b⟩
      ∧ lookupHeader (pre ++ (n, vs) :: post) n = some vs := by
  refine ⟨rfl, ?_⟩
  induction pre with
  | nil => simp [lookupHeader]
  | cons kv rest ih =>
    simp only [List.all_cons, Bool.and_eq_true, Bool.not_eq_true', beq_eq_false_iff_ne] at hfresh
    rw [List.cons_append, lookupHeader.eq_def]
    simp only [if_neg hfresh.1]
    exact ih hfresh.2

/-- Witness for C7: the repeated header name `X-Tag` with values `a` then `b`
(one multimap entry, two ordered values) survives capture as the sequence
`[a, b]`. -/
theorem headerPreservation_witness :
    parseRequest ⟨"GET", "/", [("X-Tag", ["a", "b"])], .ok ""⟩
        = .ok ⟨"GET", "/", [("X-Tag", ["a", "b"])], ""⟩
      ∧ lookupHeader [("X-Tag", ["a", "b"])] "X-Tag" = some ["a", "b"] :=
  headerPreservation "GET" "/" "" "X-Tag" ["a", "b"] [] [] (by decide)

/-- C4 counterexample: in the printer variant a GET request carrying body text is
handled without any body read — body capture does not happen for every verb. -/
theorem bodyCaptureEveryVerb_counterexample :
    PrintEvent.readBodyCall ∉ printerHandler ⟨"GET", "/x", [], .ok "payload"⟩
      ∧ PrintEvent.readBodyCall ∈ printerHandler ⟨"POST", "/x", [], .ok "payload"⟩ := by
  decide

/-- C4 (amended): in the producer variants, capture reads the whole body and the
envelope's body equals the full body text for every method and path, and gin's
catch-all route sends every covered method on every path to the same single
handler; the printer variant, however, reads the body only for POST and PUT. -/
theorem bodyCaptureAndRouting (m u b p q : String) (hdr : List (String × List String))
    (req : RawRequest) (hm : m ∈ ginAnyMethods) :
    parseRequest ⟨m, u, hdr, .ok b⟩ = .ok ⟨m, u, hdr, b⟩
      ∧ routeTarget m p = some HandlerId.mainHandler
      ∧ routeTarget m p = routeTarget m q
      ∧ (PrintEvent.readBodyCall ∈ printerHandler req
          ↔ req.method = "POST" ∨ req.method = "PUT") := by
  refine ⟨rfl, if_pos hm, rfl, ?_⟩
  obtain ⟨m2, u2, h2, bs⟩ := req
  by_cases hc : m2 = "POST" ∨ m2 = "PUT"
  · cases bs <;> simp [printerHandler, hc]
  · cases bs <;> simp [printerHandler, hc]

/-- Witness for C4 (amended) at GET with concrete paths and a body-bearing
request to the printer. -/
theorem bodyCaptureAndRouting_witness :
    parseRequest ⟨"GET", "/a?q=1", [("H", ["v"])], .ok "text"⟩
        = .ok ⟨"GET", "/a?q=1", [("H", ["v"])], "text"⟩
      ∧ routeTarget "GET" "/a" = some HandlerId.mainHandler
      ∧ routeTarget "GET" "/a" = routeTarget "GET" "/b"
      ∧ (PrintEvent.readBodyCall ∈ printerHandler ⟨"GET", "/a", [], .ok "text"⟩
          ↔ ("GET" : String) = "POST" ∨ ("GET" : String) = "PUT") :=
  bodyCaptureAndRouting "GET" "/a?q=1" "text" "/a" "/b" [("H", ["v"])]
    ⟨"GET", "/a", [], .ok "text"⟩ (by decide)

/-- C5 counterexample: with the backend down at startup the Kafka variant
performs no reachability check and still starts serving traffic. -/
theorem startupFailFast_counterexample :
    StartEvent.serveHTTP 8080 ∈ kafkaMain false "localhost:9092"
      ∧ StartEvent.pingCheck ∉ kafkaMain false "localhost:9092" := by
  decide

/-- C5 (amended): the Redis variant creates the backend handle exactly once,
verifies it by ping before the listener starts, and serves only when the backend
is reachable — when unreachable it logs the startup failure and never serves; the
Kafka variant also creates its handle exactly once but performs no reachability
check, its whole startup trace being independent of the backend's state. -/
theorem startupFailFast (backendUp : Bool) (addrRaw : String) :
    redisMain backendUp
        = (if backendUp then
            [StartEvent.createHandle, .pingCheck, .logStartInfo "Connected to Redis",
              .serveHTTP 8080]
          else
            [StartEvent.createHandle, .pingCheck,
              .logStartError "Failed to initialize server"])
      ∧ kafkaMain backendUp addrRaw = kafkaMain true addrRaw := by
  cases backendUp <;> simp [redisMain, redisNewServer, kafkaMain, kafkaNewServer]

/-- C8: evaluation at the failing input — the Kafka variant's `NewServer` drops
its `seeds` argument, so the backend-address flag never reaches the client: the
configuration built for `otherhost:9999` equals the one built for the default
address and keeps only the library default seed (while the topic stays the
hardcoded `foo`); the Redis variant, by contrast, passes its flag through as the
client address. -/
theorem backendAddressIgnored :
    kafkaNewServer ["otherhost:9999"] = kafkaNewServer ["localhost:9092"]
      ∧ kafkaNewServer ["otherhost:9999"]
          = .ok ⟨some "my-group-identifier", ["foo"], franzDefaultSeeds⟩
      ∧ redisNewServerOpts "otherhost:9999" = ⟨"otherhost:9999", 0⟩ := by
  decide
